import Mathlib

/-!
Verification development for the windwords scripture-extraction core.

The Python sources are embedded shallowly: strings become `List Char`
(`Str`), Python string methods become executable Lean functions with the
same observable behaviour, the compiled scripture regular expression
becomes a term of an explicit regex abstract syntax evaluated by a
fuel-bounded backtracking matcher with list-of-successes semantics, and
fallible code returns `Except`/`Option`.

Parts of the program that live in third-party libraries (the
`scriptures` base text class, `num2words`, `words2num`, the NLTK
stopword list) are modelled from the specification; each such
definition carries a doc comment starting with `Modelled from the
spec:`.
-/

namespace Windwords

deriving instance DecidableEq for Except

/-- Strings are modelled as lists of characters. -/
abbrev Str := List Char

/-- Characters counted as whitespace by Python `str.strip` and `\s`
(ASCII fragment: space, tab, newline, carriage return, vertical tab,
form feed). -/
def isPySpace (c : Char) : Bool :=
  c = ' ' || c = '\t' || c = '\n' || c = '\r' || c.val = 11 || c.val = 12

/-- Word characters for the `\b` boundary assertion (ASCII fragment of
`re` word characters: letters, digits, underscore). -/
def isWordCh (c : Char) : Bool :=
  c.isAlpha || c.isDigit || c = '_'

/-- Case-insensitive character comparison, modelling `re.IGNORECASE`. -/
def lowEq (a b : Char) : Bool :=
  a.toLower = b.toLower

/-- Auxiliary worker for `pySplit`; `fuel` bounds the recursion and is
always sufficient when instantiated by `pySplit`. -/
def pySplitGo (sep : Str) : Nat → Str → Str → List Str
  | 0, acc, s => [acc.reverse ++ s]
  | fuel + 1, acc, s =>
    if sep.isPrefixOf s ∧ sep ≠ [] then
      acc.reverse :: pySplitGo sep fuel [] (s.drop sep.length)
    else
      match s with
      | [] => [acc.reverse]
      | c :: rest => pySplitGo sep fuel (c :: acc) rest

/-- Python `s.split(sep)` for a non-empty separator: splits at every
non-overlapping occurrence of `sep`, keeping empty fields, and returns
`[s]` when `sep` does not occur (in particular `[""]` on `""`). -/
def pySplit (sep s : Str) : List Str :=
  pySplitGo sep (s.length + 1) [] s

/-- Python `s.strip()`: removes leading and trailing whitespace. -/
def pyStrip (s : Str) : Str :=
  ((s.dropWhile isPySpace).reverse.dropWhile isPySpace).reverse

/-- Auxiliary worker for `pyReplace`. -/
def pyReplaceGo (pat rep : Str) : Nat → Str → Str
  | 0, s => s
  | fuel + 1, s =>
    if pat.isPrefixOf s ∧ pat ≠ [] then
      rep ++ pyReplaceGo pat rep fuel (s.drop pat.length)
    else
      match s with
      | [] => []
      | c :: rest => c :: pyReplaceGo pat rep fuel rest

/-- Python `s.replace(pat, rep)` for a non-empty `pat`: replaces every
non-overlapping occurrence, scanning left to right. -/
def pyReplace (s pat rep : Str) : Str :=
  pyReplaceGo pat rep (s.length + 1) s

/-- Parses a non-empty all-digit string into a natural number, as the
digit portion of Python `int`. -/
def natDigits (s : Str) : Option Nat :=
  if s ≠ [] ∧ s.all Char.isDigit then
    some (s.foldl (fun n c => n * 10 + (c.toNat - '0'.toNat)) 0)
  else
    none

/-- Python `int(s)` on a string: surrounding whitespace is ignored, an
optional sign precedes the digits. -/
def pyInt (s : Str) : Option Int :=
  match pyStrip s with
  | '+' :: ds => (natDigits ds).map Int.ofNat
  | '-' :: ds => (natDigits ds).map (fun n => -(n : Int))
  | ds => (natDigits ds).map Int.ofNat

/-- Decimal rendering of a natural number, as Python `str(n)`. -/
def natToStr (n : Nat) : Str :=
  (Nat.repr n).data

/-- The stride-4 slice `lines[off::4]` of Python list slicing, for
`off < 4`. -/
def every4 : List α → Nat → List α
  | [], _ => []
  | x :: xs, 0 => x :: every4 xs 3
  | _ :: xs, n + 1 => every4 xs n

/-- Error-propagating map over a list, mirroring a Python loop or
comprehension that can raise on an element: the first failing element
aborts the whole computation. -/
def exMapM (f : α → Except ε β) : List α → Except ε (List β)
  | [] => .ok []
  | x :: xs =>
    match f x with
    | .error e => .error e
    | .ok y =>
      match exMapM f xs with
      | .error e => .error e
      | .ok ys => .ok (y :: ys)

/-- Python `zip` over three lists (truncating to the shortest). -/
def zip3 : List α → List β → List γ → List (α × β × γ)
  | a :: as, b :: bs, c :: cs => (a, b, c) :: zip3 as bs cs
  | _, _, _ => []

/-- Joins a list of pattern fragments with the `|` alternation bar, as
Python `"|".join(...)`. -/
def joinBar (ps : List Str) : Str :=
  List.intercalate ['|'] ps

/-- Joins caption lines with single spaces, as `" ".join(captions)`. -/
def joinSpace (ps : List Str) : Str :=
  List.intercalate [' '] ps

/-! ### String ordering

`strLeB` is the lexicographic-by-code-point comparison Python uses when
sorting strings; the length-based relations model
`sorted(..., key=len, reverse=True)` in `_words_to_regex` and the
longest-first ordering of the combined book alternation. -/

/-- Lexicographic string comparison by character code, as Python `<=`
on strings. -/
def strLeB : Str → Str → Bool
  | [], _ => true
  | _ :: _, [] => false
  | a :: as, b :: bs => if a < b then true else if b < a then false else strLeB as bs

def strLeB_total : ∀ a b : Str, strLeB a b = true ∨ strLeB b a = true
  | [], _ => .inl rfl
  | _ :: _, [] => .inr rfl
  | a :: as, b :: bs => by
    by_cases h1 : a < b
    · left
      simp [strLeB, h1]
    · by_cases h2 : b < a
      · right
        simp [strLeB, h2]
      · have hab : a = b := le_antisymm (not_lt.mp h2) (not_lt.mp h1)
        subst hab
        simp only [strLeB, lt_self_iff_false, if_false]
        exact strLeB_total as bs

def strLeB_trans : ∀ a b c : Str,
    strLeB a b = true → strLeB b c = true → strLeB a c = true
  | [], _, _, _, _ => rfl
  | _ :: _, [], _, h, _ => by cases h
  | _ :: _, _ :: _, [], _, h => by cases h
  | a :: as, b :: bs, c :: cs, hab, hbc => by
    by_cases h1 : a < b
    · by_cases h2 : b < c
      · simp [strLeB, lt_trans h1 h2]
      · by_cases h3 : c < b
        · simp [strLeB, h2, h3] at hbc
        · have hbc' : b = c := le_antisymm (not_lt.mp h3) (not_lt.mp h2)
          subst hbc'
          simp [strLeB, h1]
    · by_cases h1' : b < a
      · simp [strLeB, h1, h1'] at hab
      · have hab' : a = b := le_antisymm (not_lt.mp h1') (not_lt.mp h1)
        subst hab'
        by_cases h2 : a < c
        · simp [strLeB, h2]
        · by_cases h3 : c < a
          · simp [strLeB, h2, h3] at hbc
          · have hac : a = c := le_antisymm (not_lt.mp h3) (not_lt.mp h2)
            subst hac
            simp only [strLeB, lt_self_iff_false, if_false] at hab hbc ⊢
            exact strLeB_trans as bs cs hab hbc

/-- The string order as a relation, used for the final lexicographic
sort of canonical reference strings. -/
def SLe (a b : String) : Prop := strLeB a.data b.data = true

instance : DecidableRel SLe := fun _ _ => instDecidableEqBool _ _

instance : IsTotal String SLe := ⟨fun a b => strLeB_total a.data b.data⟩

instance : IsTrans String SLe := ⟨fun _ _ _ => strLeB_trans _ _ _⟩

/-- Descending-length relation on strings: `lenGe a b` holds when `a`
is at least as long as `b`.  `insertionSort lenGe` models Python's
stable `sorted(..., key=len, reverse=True)`. -/
def lenGe (a b : Str) : Prop := b.length ≤ a.length

instance : DecidableRel lenGe := fun _ _ => Nat.decLe _ _

instance : IsTotal Str lenGe := ⟨fun a b => Or.symm (Nat.le_total a.length b.length)⟩

instance : IsTrans Str lenGe := ⟨fun _ _ _ h1 h2 => Nat.le_trans h2 h1⟩

/-- Embedding of `Bible._words_to_regex` up to the final `"|".join`:
the word list sorted by decreasing length (stable). -/
def words_to_regexList (ws : List Str) : List Str :=
  List.insertionSort lenGe ws

/-- Embedding of `Bible._words_to_regex`: the bitwise-OR alternation of
the given words, longest first. -/
def words_to_regex (ws : List Str) : Str :=
  joinBar (words_to_regexList ws)

/-! ### The regex engine

The compiled scripture pattern is represented by an explicit abstract
syntax `RE` and evaluated by `matchR`, a fuel-bounded backtracking
matcher returning the list of all successes in the preference order of
a backtracking engine (Python `re`): the head of the list is the match
`re` reports.  Named groups are the five capture regions of the
scripture pattern. -/

/-- The five named capture groups of the scripture pattern. -/
inductive GName where
  | bookTitle
  | chapterNumber
  | verseNumber
  | endChapterNumber
  | endVerseNumber
deriving DecidableEq

/-- Capture state: the span (start, stop) last recorded for each named
group, or `none` if the group did not participate. -/
structure Caps where
  bookTitle : Option (Nat × Nat) := none
  chapterNumber : Option (Nat × Nat) := none
  verseNumber : Option (Nat × Nat) := none
  endChapterNumber : Option (Nat × Nat) := none
  endVerseNumber : Option (Nat × Nat) := none
deriving DecidableEq

/-- Records a span for a named group. -/
def setCap (g : GName) (sp : Nat × Nat) (c : Caps) : Caps :=
  match g with
  | .bookTitle => { c with bookTitle := some sp }
  | .chapterNumber => { c with chapterNumber := some sp }
  | .verseNumber => { c with verseNumber := some sp }
  | .endChapterNumber => { c with endChapterNumber := some sp }
  | .endVerseNumber => { c with endVerseNumber := some sp }

/-- Character classes appearing in the scripture pattern. -/
inductive CClass where
  | digit
  | space
deriving DecidableEq

/-- Membership test of a character class (`\d`, `\s`). -/
def inClass (k : CClass) (c : Char) : Bool :=
  match k with
  | .digit => c.isDigit
  | .space => isPySpace c

/-- Regex abstract syntax: empty-failure, empty-success, a single
(case-insensitively compared) character, a character class, the `\b`
word boundary, concatenation, preferred-first alternation, greedy
Kleene star, a named capture group, and a zero-width lookahead. -/
inductive RE where
  | fail
  | eps
  | ch (c : Char)
  | cls (k : CClass)
  | wordB
  | seq (a b : RE)
  | alt (a b : RE)
  | star (a : RE)
  | grp (g : GName) (a : RE)
  | look (a : RE)
deriving DecidableEq

/-- Is position `k` of `txt` occupied by a word character? -/
def wordAt (txt : Str) (k : Nat) : Bool :=
  match txt[k]? with
  | some c => isWordCh c
  | none => false

/-- The `\b` test: word-ness differs between the previous and current
position. -/
def isBoundary (txt : Str) (i : Nat) : Bool :=
  (match i with
   | 0 => false
   | j + 1 => wordAt txt j) != wordAt txt i

/-- Backtracking matcher with list-of-successes semantics: all ways
`re` can match `txt` starting at `i`, as (end position, captures)
pairs, in backtracking preference order (greedy stars, left alternative
first).  `fuel` bounds the recursion depth; with sufficient fuel the
head of the list is exactly the match Python `re` reports. -/
def matchR (txt : Str) : Nat → RE → Nat → Caps → List (Nat × Caps)
  | 0, _, _, _ => []
  | _ + 1, .fail, _, _ => []
  | _ + 1, .eps, i, c => [(i, c)]
  | _ + 1, .ch a, i, c =>
    match txt[i]? with
    | some t => if lowEq t a then [(i + 1, c)] else []
    | none => []
  | _ + 1, .cls k, i, c =>
    match txt[i]? with
    | some t => if inClass k t then [(i + 1, c)] else []
    | none => []
  | _ + 1, .wordB, i, c => if isBoundary txt i then [(i, c)] else []
  | fuel + 1, .seq a b, i, c =>
    (matchR txt fuel a i c).flatMap (fun p => matchR txt fuel b p.1 p.2)
  | fuel + 1, .alt a b, i, c => matchR txt fuel a i c ++ matchR txt fuel b i c
  | fuel + 1, .star a, i, c =>
    ((matchR txt fuel a i c).flatMap fun p =>
      if p.1 ≤ i then [] else matchR txt fuel (.star a) p.1 p.2) ++ [(i, c)]
  | fuel + 1, .grp g a, i, c =>
    (matchR txt fuel a i c).map (fun p => (p.1, setCap g (i, p.1) p.2))
  | fuel + 1, .look a, i, c =>
    if (matchR txt fuel a i c).isEmpty then [] else [(i, c)]

/-- One reported match of `finditer`: start, end, and captures. -/
structure MatchRes where
  mstart : Nat
  mstop : Nat
  caps : Caps
deriving DecidableEq

/-- Generous recursion-depth bound for the matcher: evaluation depth is
bounded by the pattern size plus the consumed text, far below this. -/
def engineFuel (txt : Str) : Nat := 50 * txt.length + 2000

/-- Scanning loop of `finditer`: try the pattern at each position, emit
the first (preferred) match, resume after its end. -/
def scanGo (txt : Str) (re : RE) : Nat → Nat → List MatchRes
  | 0, _ => []
  | fuel + 1, i =>
    if i > txt.length then []
    else
      match (matchR txt (engineFuel txt) re i {}).head? with
      | some p => ⟨i, p.1, p.2⟩ :: scanGo txt re fuel (if i < p.1 then p.1 else i + 1)
      | none => scanGo txt re fuel (i + 1)

/-- Embedding of `re.finditer(pattern, txt)`. -/
def findIter (txt : Str) (re : RE) : List MatchRes :=
  scanGo txt re (txt.length + 2) 0

/-- Embedding of `re.fullmatch(pattern, s)` as a Boolean. -/
def fullMatch (re : RE) (s : Str) : Bool :=
  (matchR s (engineFuel s) re 0 {}).any (fun p => p.1 = s.length)

/-- A literal string as a pattern (each character case-insensitive). -/
def litS (s : Str) : RE := s.foldr (fun c r => .seq (.ch c) r) .eps

/-- A literal string literal as a pattern. -/
def lit (s : String) : RE := litS s.data

/-- Alternation over a list, first alternative preferred. -/
def altL : List RE → RE
  | [] => .fail
  | [r] => r
  | r :: rs => .alt r (altL rs)

/-- Concatenation over a list. -/
def seqL (rs : List RE) : RE := rs.foldr .seq .eps

/-- Greedy option `(...)?`. -/
def opt (a : RE) : RE := .alt a .eps

/-- The `\s` class. -/
def sp : RE := .cls .space

/-- The `\d` class. -/
def dig : RE := .cls .digit

/-- The `\d{1,3}` fragment (greedy: three digits preferred). -/
def d13 : RE := .seq dig (opt (.seq dig (opt dig)))

/-! ### The book registry

`Bible.__init__` starts from the base `KingJames1611` book dictionary,
adds the two `alternate_book_names` entries from the source, and runs
`_update_book_numeral_regex` over every pattern.  The base dictionary
itself is third-party data. -/

/-- One registered book: key, canonical name, abbreviation, alias
pattern (a regex fragment, as a string), and per-chapter verse
counts. -/
structure CBook where
  key : String
  name : String
  abbr : String
  pattern : Str
  verses : List Nat
deriving DecidableEq

/-- Modelled from the spec: the canonical book/verse-count table is
supplied by the external base text library (the 66/73-book
`KingJames1611` dictionary); it is modelled here restricted to the
books the claims exercise, with their alias patterns in the base
library's leading-ordinal-group form and realistic verse counts.  The
two `song_alt` entries are the `alternate_book_names` additions taken
verbatim from the source, appended after the base entries exactly as
`dict.update` appends new keys. -/
def books : List CBook := [
  ⟨"mark", "Mark", "Mark", "Mark".data,
    [45, 28, 35, 41, 43, 56, 37, 38, 50, 52, 33, 44, 37, 72, 47, 20]⟩,
  ⟨"1tim", "I Timothy", "1Tim", "(?:1|I)(?:\\s)?Tim(?:othy)?".data,
    [20, 15, 16, 16, 25, 21]⟩,
  ⟨"2tim", "II Timothy", "2Tim", "(?:2|II)(?:\\s)?Tim(?:othy)?".data,
    [18, 26, 17, 22]⟩,
  ⟨"song_alt1", "Song of Solomon", "Song", "Song(?:s)?(?: of Son(?:gs)?)?".data,
    [17, 17, 11, 16, 16, 13, 13, 14]⟩,
  ⟨"song_alt2", "Song of Solomon", "Song", "Cant(?:icle(?: of Cant(?:icles)?)?)?".data,
    [17, 17, 11, 16, 16, 13, 13, 14]⟩]

/-- The three textual substitutions of `_update_book_numeral_regex`,
in source order. -/
def numeralSubs : List (Str × Str) := [
  ("(?:1|I)".data, "(?:1|I|1st|one|first)".data),
  ("(?:2|II)".data, "(?:2|II|2nd|two|second)".data),
  ("(?:3|III)".data, "(?:3|III|3rd|three|third)".data)]

/-- Embedding of `_update_book_numeral_regex` on one pattern: the three
`str.replace` substitutions applied in order. -/
def updateBookPattern (p : Str) : Str :=
  numeralSubs.foldl (fun q st => pyReplace q st.1 st.2) p

/-- The registry after `_update_book_numeral_regex`: every pattern has
its leading ordinal groups expanded. -/
def booksUpdated : List CBook :=
  books.map (fun b => { b with pattern := updateBookPattern b.pattern })

/-- Embedding of the `maximum_chapter_count` property. -/
def maximum_chapter_count : Nat :=
  (books.map (fun b => b.verses.length)).foldl max 0

/-- Embedding of the `maximum_verse_count` property. -/
def maximum_verse_count : Nat :=
  (books.flatMap (fun b => b.verses)).foldl max 0

/-- The alternation of the five numeral forms that
`_update_book_numeral_regex` substitutes for `(?:1|I)`, translated to
regex syntax. -/
def num1Alt : RE := altL [lit "1", lit "I", lit "1st", lit "one", lit "first"]

/-- The alternation substituted for `(?:2|II)`. -/
def num2Alt : RE := altL [lit "2", lit "II", lit "2nd", lit "two", lit "second"]

/-- The alternation substituted for `(?:3|III)`. -/
def num3Alt : RE := altL [lit "3", lit "III", lit "3rd", lit "three", lit "third"]

/-- The regex-syntax translation of each registered book's pattern
after `_update_book_numeral_regex`; keyed by registry key.  Each case
is the hand translation of the corresponding updated pattern string in
`booksUpdated`. -/
def bookAST : String → RE
  | "mark" => lit "Mark"
  | "1tim" => seqL [num1Alt, opt sp, lit "Tim", opt (lit "othy")]
  | "2tim" => seqL [num2Alt, opt sp, lit "Tim", opt (lit "othy")]
  | "song_alt1" => seqL [lit "Song", opt (lit "s"), opt (.seq (lit " of Son") (opt (lit "gs")))]
  | "song_alt2" => seqL [lit "Cant", opt (.seq (lit "icle") (opt (.seq (lit " of Cant") (opt (lit "icles")))))]
  | _ => .fail

/-- Descending-pattern-length relation on registered books, the order
of the combined alternation. -/
def bookLenGe (a b : CBook) : Prop := b.pattern.length ≤ a.pattern.length

instance : DecidableRel bookLenGe := fun _ _ => Nat.decLe _ _

instance : IsTotal CBook bookLenGe :=
  ⟨fun a b => Or.symm (Nat.le_total a.pattern.length b.pattern.length)⟩

instance : IsTrans CBook bookLenGe := ⟨fun _ _ _ h1 h2 => Nat.le_trans h2 h1⟩

/-- Modelled from the spec: the base library's `combined_pattern`
ordering — every registered pattern, ordered longest-first with stable
ties (registration order preserved among equal lengths). -/
def combinedBooks : List CBook :=
  List.insertionSort bookLenGe booksUpdated

/-- Modelled from the spec: `book_re_string`, the combined alternation
of every registered (updated) pattern, longest first. -/
def book_re_string : Str :=
  joinBar (combinedBooks.map (fun b => b.pattern))

/-- The combined book alternation in regex syntax, in exactly the
`combinedBooks` order. -/
def bookAlt : RE :=
  altL (combinedBooks.map (fun b => bookAST b.key))

/-! ### Filler words and the scripture pattern -/

/-- The `_CHAPTER_WORDS` class attribute. -/
def chapterWords : List String := ["chapter", "chapters"]

/-- The `_VERSE_WORDS` class attribute. -/
def verseWords : List String := ["verse", "verses"]

/-- Modelled from the spec: the generic English stopword list is
supplied externally (NLTK, via `get_stopwords`); a representative
fragment is used here. -/
def stopwords : List String := ["through", "and", "the", "of", "to", "in", "go"]

/-- The word list passed to `_words_to_regex` for the chapter filler
alternation: `_CHAPTER_WORDS + sw`. -/
def chapterFiller : List Str := (chapterWords ++ stopwords).map String.data

/-- The word list for the verse filler alternation: `_VERSE_WORDS + sw`. -/
def verseFiller : List Str := (verseWords ++ stopwords).map String.data

/-- The chapter filler alternation in regex syntax (same longest-first
order as `words_to_regex`). -/
def chapterAlt : RE := altL ((words_to_regexList chapterFiller).map litS)

/-- The verse filler alternation in regex syntax. -/
def verseAlt : RE := altL ((words_to_regexList verseFiller).map litS)

/-- Embedding of `get_scripture_regex` as the pattern string the source
assembles (the braces of the counted repetitions appear as their
character codes). -/
def get_scripture_regex : Str :=
  "\\b(?P<BookTitle>".data ++ book_re_string ++ ")\\s*".data
    ++ "(?:".data ++ words_to_regex chapterFiller ++ "|\\s)*".data
    ++ "(?P<ChapterNumber>\\d\x7b1,3\x7d)".data
    ++ "(?:".data ++ words_to_regex verseFiller ++ "|\\s)*".data
    ++ "(?:\\s*:*\\s*(?P<VerseNumber>\\d\x7b1,3\x7d))?".data
    ++ "(?:".data ++ words_to_regex chapterFiller ++ "|\\s)*".data
    ++ "(?:\\s*[-\\u2013\\u2014]*\\s*".data
    ++ "(?P<EndChapterNumber>\\d\x7b1,3\x7d(?=\\s*:\\s*))?".data
    ++ "(?:".data ++ words_to_regex verseFiller ++ "|\\s)*".data
    ++ "(?:\\s*:\\s*)?".data
    ++ "(?P<EndVerseNumber>\\d\x7b1,3\x7d)?".data
    ++ ")?".data

/-- The lookahead body `\s*:\s*` guarding `EndChapterNumber`. -/
def wsColonRE : RE := seqL [.star sp, .ch ':', .star sp]

/-- The `[-–—]` dash class (hyphen, en dash, em dash). -/
def dashAlt : RE := altL [.ch '-', .ch (Char.ofNat 0x2013), .ch (Char.ofNat 0x2014)]

/-- A `(?:words|\s)*` filler fragment. -/
def fillerStar (words : RE) : RE := .star (.alt words sp)

/-- The compiled scripture pattern of `get_scripture_regex`, in regex
syntax; each element of the concatenation is the translation of the
corresponding fragment of the source pattern string. -/
def scriptureRE : RE := seqL [
  .wordB,
  .grp .bookTitle bookAlt,
  .star sp,
  fillerStar chapterAlt,
  .grp .chapterNumber d13,
  fillerStar verseAlt,
  opt (seqL [.star sp, .star (.ch ':'), .star sp, .grp .verseNumber d13]),
  fillerStar chapterAlt,
  opt (seqL [
    .star sp, .star dashAlt, .star sp,
    opt (.grp .endChapterNumber (.seq d13 (.look wsColonRE))),
    fillerStar verseAlt,
    opt (seqL [.star sp, .ch ':', .star sp]),
    opt (.grp .endVerseNumber d13)])]

/-! ### Number-word normalization -/

/-- English name of a digit 1..9. -/
def onesWord : Nat → String
  | 1 => "one"
  | 2 => "two"
  | 3 => "three"
  | 4 => "four"
  | 5 => "five"
  | 6 => "six"
  | 7 => "seven"
  | 8 => "eight"
  | 9 => "nine"
  | _ => ""

/-- English name of 10..19. -/
def teenWord : Nat → String
  | 10 => "ten"
  | 11 => "eleven"
  | 12 => "twelve"
  | 13 => "thirteen"
  | 14 => "fourteen"
  | 15 => "fifteen"
  | 16 => "sixteen"
  | 17 => "seventeen"
  | 18 => "eighteen"
  | 19 => "nineteen"
  | _ => ""

/-- English name of a tens digit 2..9. -/
def tensWord : Nat → String
  | 2 => "twenty"
  | 3 => "thirty"
  | 4 => "forty"
  | 5 => "fifty"
  | 6 => "sixty"
  | 7 => "seventy"
  | 8 => "eighty"
  | 9 => "ninety"
  | _ => ""

/-- English name of 1..99, compounds hyphenated. -/
def numWordSub (n : Nat) : String :=
  if n < 10 then onesWord n
  else if n < 20 then teenWord n
  else if n % 10 = 0 then tensWord (n / 10)
  else tensWord (n / 10) ++ "-" ++ onesWord (n % 10)

/-- Modelled from the spec: the external `num2words` cardinal rendering
for 1..999 (English, hyphenated compounds, hundreds joined with
"and"). -/
def num2words (n : Nat) : Str :=
  (if n < 100 then numWordSub n
   else if n % 100 = 0 then onesWord (n / 100) ++ " hundred"
   else onesWord (n / 100) ++ " hundred and " ++ numWordSub (n % 100)).data

/-- The `max_number` bound of `words_to_numbers_regex`. -/
def max_number : Nat := max maximum_chapter_count maximum_verse_count

/-- The word list of `words_to_numbers_regex`: the spelled form of
every n in [1, max_number], hyphens replaced by spaces (the
`replace("-", " ")` is the source's). -/
def numberWords : List Str :=
  (List.range max_number).map (fun k => pyReplace (num2words (k + 1)) "-".data " ".data)

/-- The number-word list in the alternation's longest-first order. -/
def numberWordsSorted : List Str := words_to_regexList numberWords

/-- Embedding of `words_to_numbers_regex`: the alternation string. -/
def words_to_numbers_regex : Str := words_to_regex numberWords

/-- Modelled from the spec: the external `words2num`, parsing a
spelled-out (space-joined) number word back to its value; modelled as
the inverse lookup of the spelled forms. -/
def words2num (w : Str) : Nat :=
  match (List.range 999).find? (fun k => pyReplace (num2words (k + 1)) "-".data " ".data == w) with
  | some k => k + 1
  | none => 0

/-- Scanner for `re.findall` over an alternation of literal (non-empty)
words without anchors: at each position the first listed word that
matches is emitted and the scan resumes after it; case-sensitive, as
the source compiles this pattern without flags. -/
def findAllWordsGo (ws : List Str) : Nat → Str → List Str
  | 0, _ => []
  | fuel + 1, s =>
    match ws.find? (fun w => !w.isEmpty && w.isPrefixOf s) with
    | some w => w :: findAllWordsGo ws fuel (s.drop w.length)
    | none =>
      match s with
      | [] => []
      | _ :: rest => findAllWordsGo ws fuel rest

/-- Embedding of `re.findall(words_to_numbers_regex(), text)`. -/
def findAllWords (ws : List Str) (txt : Str) : List Str :=
  findAllWordsGo ws (txt.length + 1) txt

/-- The number-word substitution loop at the top of `Bible.extract`:
each found word is globally replaced by its digit form. -/
def normalizeNumbers (text : Str) : Str :=
  (findAllWords numberWordsSorted text).foldl
    (fun t w => pyReplace t w (natToStr (words2num w))) text

/-! ### Reference resolution -/

/-- A structured scripture reference (canonical book name, start
chapter, optional start verse, optional end chapter/verse). -/
structure Ref where
  book : String
  startChapter : Nat
  startVerse : Option Nat
  endChapter : Option Nat
  endVerse : Option Nat
deriving DecidableEq

/-- Resolves a captured `BookTitle` text to its registry entry by
testing which registered pattern it fully matches (case-insensitive),
in registry order. -/
def findBookEntry (title : Str) : Option CBook :=
  booksUpdated.find? (fun b => fullMatch (bookAST b.key) title)

/-- Looks a book up by canonical name (registry order, first hit). -/
def findBookByName (nm : String) : Option CBook :=
  booksUpdated.find? (fun b => b.name == nm)

/-- Bounds validation of a reference against the registry's verse
table: chapters must lie within the book's chapter list and verses
within the chapter's verse count. -/
def refWithinBounds (r : Ref) : Bool :=
  match findBookByName r.book with
  | none => false
  | some e =>
    decide (1 ≤ r.startChapter) && decide (r.startChapter ≤ e.verses.length) &&
    (match r.startVerse with
     | none => true
     | some v =>
       match e.verses[r.startChapter - 1]? with
       | some cnt => decide (1 ≤ v) && decide (v ≤ cnt)
       | none => false) &&
    (match r.endChapter, r.endVerse with
     | none, none => true
     | some ec, some ev =>
       decide (1 ≤ ec) && decide (ec ≤ e.verses.length) &&
       (match e.verses[ec - 1]? with
        | some cnt => decide (1 ≤ ev) && decide (ev ≤ cnt)
        | none => false)
     | _, _ => false)

/-- The parsed contents of one raw match's capture groups. -/
structure RawGroups where
  title : Str
  chap : Nat
  verseNum : Option Nat
  endChap : Option Nat
  endVerseNum : Option Nat
deriving DecidableEq

/-- Modelled from the spec: the ReferenceResolver — book lookup by
pattern test, range completion (a captured end chapter without an end
verse is discarded; an end verse alone closes a same-chapter range),
and bounds validation with silent discard. -/
def resolve (g : RawGroups) : Option Ref :=
  match findBookEntry g.title with
  | none => none
  | some e =>
    match g.endChap, g.endVerseNum with
    | some _, none => none
    | some ec, some ev =>
      if refWithinBounds ⟨e.name, g.chap, g.verseNum, some ec, some ev⟩ then
        some ⟨e.name, g.chap, g.verseNum, some ec, some ev⟩
      else none
    | none, some ev =>
      if refWithinBounds ⟨e.name, g.chap, g.verseNum, some g.chap, some ev⟩ then
        some ⟨e.name, g.chap, g.verseNum, some g.chap, some ev⟩
      else none
    | none, none =>
      if refWithinBounds ⟨e.name, g.chap, g.verseNum, none, none⟩ then
        some ⟨e.name, g.chap, g.verseNum, none, none⟩
      else none

/-- The substring of `txt` spanned by [a, b). -/
def substr (txt : Str) (a b : Nat) : Str := (txt.drop a).take (b - a)

/-- Extracts and parses the five capture groups of a match. -/
def groupsOf (txt : Str) (c : Caps) : Option RawGroups :=
  match c.bookTitle, c.chapterNumber with
  | some bt, some cn =>
    match natDigits (substr txt cn.1 cn.2) with
    | none => none
    | some chv =>
      some ⟨substr txt bt.1 bt.2, chv,
        c.verseNumber.bind (fun p => natDigits (substr txt p.1 p.2)),
        c.endChapterNumber.bind (fun p => natDigits (substr txt p.1 p.2)),
        c.endVerseNumber.bind (fun p => natDigits (substr txt p.1 p.2))⟩
  | _, _ => none

/-- Modelled from the spec: the base class `extract` (match all, then
resolve each raw match, silently discarding invalid ones), composed
with the source's number-word normalization — the full `Bible.extract`
pipeline. -/
def bibleExtract (text : Str) : List Ref :=
  let t := normalizeNumbers text
  (findIter t scriptureRE).filterMap (fun m => (groupsOf t m.caps).bind resolve)

/-- Modelled from the spec: the canonical rendering
`reference_to_string`: `"<book> <chapter>[:<verse>][-[<endChapter>:]<endVerse>]"`,
the end chapter rendered only when it differs from the start
chapter. -/
def reference_to_string (r : Ref) : String :=
  let base := r.book ++ " " ++ Nat.repr r.startChapter
  let base := match r.startVerse with
    | some v => base ++ ":" ++ Nat.repr v
    | none => base
  match r.endChapter, r.endVerse with
  | some ec, some ev =>
    if ec = r.startChapter then base ++ "-" ++ Nat.repr ev
    else base ++ "-" ++ Nat.repr ec ++ ":" ++ Nat.repr ev
  | _, _ => base

/-- The full text-to-canonical-strings pipeline, as the tests'
`extract` helper: `Bible.extract` rendered through
`reference_to_string`. -/
def extractStrings (text : Str) : List String :=
  (bibleExtract text).map reference_to_string

/-! ### Subtitle decomposition -/

/-- The two observable error kinds of the subtitle path: the failed
`assert` on the blank-separator slice (the spec's StructureError), and
Python `ValueError` (failed tuple unpacking or `int` parse). -/
inductive PyErr where
  | assertionError
  | valueError
deriving DecidableEq

/-- Processing of one timecode line in `decompose_srt`: `t.split("-->")`
unpacked into exactly a (start, end) pair, each stripped; a split that
does not have exactly two parts is the tuple-unpacking `ValueError`. -/
def splitTimecode (t : Str) : Except PyErr (Str × Str) :=
  match pySplit "-->".data t with
  | [s, e] => .ok (pyStrip s, pyStrip e)
  | _ => .error .valueError

/-- Embedding of `decompose_srt`: split into lines, slice by stride 4,
assert the blank-separator slice, split each timecode line on `-->`
into exactly a (start, end) pair, stripping both. -/
def decompose_srt (srt : Str) : Except PyErr (List Str × List (Str × Str) × List Str) :=
  let lines := pySplit "\n".data srt
  let frames := every4 lines 0
  let timecodes := every4 lines 1
  let captions := every4 lines 2
  let spaces := every4 lines 3
  if spaces.any (fun s => !s.isEmpty) then .error .assertionError
  else
    match exMapM splitTimecode timecodes with
    | .error e => .error e
    | .ok times => .ok (frames, times, captions)

/-- One JSON record of `convert_srt_into_document`. -/
structure SrtRecord where
  caption : Str
  frame : Int
  startTime : Str
  endTime : Str
deriving DecidableEq

/-- One loop iteration of `convert_srt_into_document`: a zipped
(frame, times, caption) triple becomes a record, `int(frame)` raising
`ValueError` on a non-numeric frame line. -/
def mkRecord (x : Str × (Str × Str) × Str) : Except PyErr SrtRecord :=
  match pyInt x.1 with
  | some n => .ok ⟨x.2.2, n, x.2.1.1, x.2.1.2⟩
  | none => .error .valueError

/-- Embedding of `convert_srt_into_document`: decompose, then zip the
three slices into records, integer-parsing the frame line. -/
def convert_srt_into_document (srt : Str) : Except PyErr (List SrtRecord) :=
  match decompose_srt srt with
  | .error e => .error e
  | .ok (frames, times, captions) =>
    exMapM mkRecord (zip3 frames times captions)

/-- Embedding of `extract_scriptures_from_srt`: decompose, join the
captions with spaces, extract and render references, deduplicate
unless duplicates are allowed (`list(set(...))`, modelled as `dedup`
since the subsequent sort fixes the order), and sort. -/
def extract_scriptures_from_srt (srt : Str) (allow_duplicates : Bool) :
    Except PyErr (List String) :=
  match decompose_srt srt with
  | .error e => .error e
  | .ok (_, _, captions) =>
    let text := joinSpace captions
    let references := (bibleExtract text).map reference_to_string
    let references := if allow_duplicates then references else references.dedup
    .ok (List.insertionSort SLe references)

/-! ### Proof-support definitions -/

/-- Boolean scan: the string starts with zero or more whitespace
characters followed by a (case-folded) colon. -/
def skipSpColon : Str → Bool
  | [] => false
  | c :: rest =>
    if lowEq c ':' then true
    else if isPySpace c then skipSpColon rest
    else false

/-- At position `p` of `txt`, a colon follows after optional
whitespace — the semantic content of the `(?=\s*:\s*)` lookahead. -/
def colonAfterWS (txt : Str) (p : Nat) : Bool :=
  skipSpColon (txt.drop p)

/-- Syntactic check on a pattern: every `EndChapterNumber` group
appears only in the guarded shape
`(?P<EndChapterNumber>...(?=\s*:\s*))`, digits followed inside the
group by the colon lookahead. -/
def ecnGuarded : RE → Bool
  | .seq a b => ecnGuarded a && ecnGuarded b
  | .alt a b => ecnGuarded a && ecnGuarded b
  | .star a => ecnGuarded a
  | .look a => ecnGuarded a
  | .grp .endChapterNumber a =>
    (match a with
     | .seq _ (.look w) => w == wsColonRE
     | _ => false)
  | .grp _ a => ecnGuarded a
  | _ => true

/-- Capture-state invariant: any recorded `EndChapterNumber` span ends
at a position followed (after optional whitespace) by a colon. -/
def ECNok (txt : Str) (c : Caps) : Prop :=
  ∀ a b, c.endChapterNumber = some (a, b) → colonAfterWS txt b = true

/-- The four lines of one well-formed srt block: index line, timecode
line, caption line, blank separator. -/
def blockLines (b : Str × Str × Str) : List Str := [b.1, b.2.1, b.2.2, []]

/-- Concrete one-block transcript whose caption repeats a reference. -/
def srtExample : Str :=
  "1\n00:00:01,000 --> 00:00:02,000\nmark 8:34 and mark 8:34\n".data

/-- Concrete transcript with a non-blank fourth line. -/
def srtBadSeparator : Str :=
  "1\n00:00:01,000 --> 00:00:02,000\nhello\nBAD\n".data

/-- Concrete transcript whose blank separators are fine but whose
timecode line has no `-->` token. -/
def srtBadTimecode : Str := "1\nno arrow here\nhello\n".data

/-- Concrete well-formed two-block transcript. -/
def srtTwoBlocks : Str :=
  "1\n00:00:01,000 --> 00:00:02,000\nhello\n\n2\na --> b\nworld\n".data

/-- The two blocks of `srtTwoBlocks` as (index, timecode, caption)
line triples. -/
def twoBlocks : List (Str × Str × Str) :=
  [("1".data, "00:00:01,000 --> 00:00:02,000".data, "hello".data),
   ("2".data, "a --> b".data, "world".data)]

/-! ## Helper lemmas: subtitle decomposition -/

theorem splitTimecode_error_eq {t : Str} {e : PyErr} (h : splitTimecode t = .error e) :
    e = .valueError := by
  unfold splitTimecode at h
  split at h
  · cases h
  · injection h with h2
    exact h2.symm

theorem splitTimecode_error_of_len {t : Str} (h : (pySplit "-->".data t).length ≠ 2) :
    splitTimecode t = .error .valueError := by
  unfold splitTimecode
  split
  · rename_i s e hp
    rw [hp] at h
    simp at h
  · rfl

theorem splitTimecode_ok_of_len {t : Str} (h : (pySplit "-->".data t).length = 2) :
    splitTimecode t =
      .ok (pyStrip ((pySplit "-->".data t).getD 0 []),
           pyStrip ((pySplit "-->".data t).getD 1 [])) := by
  rcases hp : pySplit "-->".data t with _ | ⟨a, _ | ⟨b, _ | ⟨c, l⟩⟩⟩ <;>
    rw [hp] at h <;> simp at h
  simp [splitTimecode, hp]

theorem exMapM_splitTimecode_error : ∀ l : List Str,
    (∃ t ∈ l, (pySplit "-->".data t).length ≠ 2) →
    exMapM splitTimecode l = .error .valueError
  | [], h => by
    rcases h with ⟨t, ht, _⟩
    cases ht
  | x :: xs, h => by
    rcases h with ⟨t, ht, hlen⟩
    rcases List.mem_cons.mp ht with rfl | hmem
    · simp [exMapM, splitTimecode_error_of_len hlen]
    · cases hx : splitTimecode x with
      | error e =>
        simp [exMapM, hx, splitTimecode_error_eq hx]
      | ok y =>
        have ih := exMapM_splitTimecode_error xs ⟨t, hmem, hlen⟩
        simp [exMapM, hx, ih]

theorem exMapM_splitTimecode_ok (bs : List (Str × Str × Str))
    (h : ∀ b ∈ bs, (pySplit "-->".data b.2.1).length = 2) :
    exMapM splitTimecode (bs.map (fun b => b.2.1)) =
      .ok (bs.map (fun b =>
        (pyStrip ((pySplit "-->".data b.2.1).getD 0 []),
         pyStrip ((pySplit "-->".data b.2.1).getD 1 [])))) := by
  induction bs with
  | nil => rfl
  | cons b bs ih =>
    have h1 := splitTimecode_ok_of_len (h b (List.mem_cons_self b bs))
    have ih2 := ih (fun x hx => h x (List.mem_cons_of_mem _ hx))
    simp [exMapM, h1, ih2]

theorem zip3_map {δ : Type} (bs : List δ) (f : δ → Str) (g : δ → Str × Str) (h : δ → Str) :
    zip3 (bs.map f) (bs.map g) (bs.map h) = bs.map (fun b => (f b, g b, h b)) := by
  induction bs with
  | nil => rfl
  | cons b bs ih => simp [zip3, ih]

theorem exMapM_mkRecord (l : List (Str × (Str × Str) × Str))
    (hidx : ∀ x ∈ l, pyInt x.1 ≠ none) :
    exMapM mkRecord l =
      .ok (l.map (fun x => ⟨x.2.2, (pyInt x.1).getD 0, x.2.1.1, x.2.1.2⟩)) := by
  induction l with
  | nil => rfl
  | cons x xs ih =>
    rcases hx : pyInt x.1 with _ | n
    · exact absurd hx (hidx x (List.mem_cons_self x xs))
    · have ih2 := ih (fun y hy => hidx y (List.mem_cons_of_mem _ hy))
      simp [exMapM, mkRecord, hx, ih2]

theorem every4_cons4 (a b c d : α) (l : List α) :
    every4 (a :: b :: c :: d :: l) 0 = a :: every4 l 0
    ∧ every4 (a :: b :: c :: d :: l) 1 = b :: every4 l 1
    ∧ every4 (a :: b :: c :: d :: l) 2 = c :: every4 l 2
    ∧ every4 (a :: b :: c :: d :: l) 3 = d :: every4 l 3 :=
  ⟨rfl, rfl, rfl, rfl⟩

theorem every4_blocks (bs : List (Str × Str × Str)) :
    every4 (bs.flatMap blockLines) 0 = bs.map (fun b => b.1)
    ∧ every4 (bs.flatMap blockLines) 1 = bs.map (fun b => b.2.1)
    ∧ every4 (bs.flatMap blockLines) 2 = bs.map (fun b => b.2.2)
    ∧ every4 (bs.flatMap blockLines) 3 = bs.map (fun _ => ([] : Str)) := by
  induction bs with
  | nil => exact ⟨rfl, rfl, rfl, rfl⟩
  | cons b bs ih =>
    obtain ⟨i0, i1, i2, i3⟩ := ih
    have hcons : (b :: bs).flatMap blockLines =
        b.1 :: b.2.1 :: b.2.2 :: [] :: bs.flatMap blockLines := rfl
    refine ⟨?_, ?_, ?_, ?_⟩ <;>
      rw [hcons] <;>
      simp only [(every4_cons4 b.1 b.2.1 b.2.2 [] (bs.flatMap blockLines)).1,
        (every4_cons4 b.1 b.2.1 b.2.2 [] (bs.flatMap blockLines)).2.1,
        (every4_cons4 b.1 b.2.1 b.2.2 [] (bs.flatMap blockLines)).2.2.1,
        (every4_cons4 b.1 b.2.1 b.2.2 [] (bs.flatMap blockLines)).2.2.2,
        i0, i1, i2, i3, List.map_cons]

/-! ## Claim C7 -/

/-- C7: an srt input whose blank-separator slice (lines at stride
offset 3) contains a non-empty line makes `decompose_srt` fail with
the structural assertion error (the spec's StructureError), producing
no output at all. -/
theorem decompose_srt_rejects_nonblank_separator (srt : Str)
    (h : (every4 (pySplit "\n".data srt) 3).any (fun s => !s.isEmpty) = true) :
    decompose_srt srt = .error .assertionError := by
  simp only [decompose_srt]
  rw [h]
  rfl

/-- Witness for C7 at a concrete malformed transcript. -/
theorem decompose_srt_rejects_nonblank_separator_witness :
    decompose_srt srtBadSeparator = .error .assertionError :=
  decompose_srt_rejects_nonblank_separator srtBadSeparator (by decide)

/-! ## Claim C9 -/

/-- C9: when every blank-separator line is blank but some timecode line
does not split on `-->` into exactly two parts, `decompose_srt` fails
with the tuple-unpacking `ValueError`, not with the structural
assertion failure. -/
theorem decompose_srt_timecode_unpack_error (srt : Str)
    (hsep : (every4 (pySplit "\n".data srt) 3).any (fun s => !s.isEmpty) = false)
    (hbad : ∃ t ∈ every4 (pySplit "\n".data srt) 1, (pySplit "-->".data t).length ≠ 2) :
    decompose_srt srt = .error .valueError := by
  simp only [decompose_srt]
  rw [hsep]
  simp only [Bool.false_eq_true, if_false]
  rw [exMapM_splitTimecode_error _ hbad]

/-- Witness for C9 at a concrete transcript whose timecode line lacks
the arrow token. -/
theorem decompose_srt_timecode_unpack_error_witness :
    decompose_srt srtBadTimecode = .error .valueError :=
  decompose_srt_timecode_unpack_error srtBadTimecode (by decide)
    ⟨"no arrow here".data, by decide, by decide⟩

/-! ## Claim C8 -/

/-- C8: a well-formed transcript of N four-line blocks converts to
exactly N records in source order: the frame is the integer-parsed
offset-0 line, the timecodes are the offset-1 line split on `-->` and
stripped, and the caption is the offset-2 line verbatim. -/
theorem convert_srt_well_formed_blocks (bs : List (Str × Str × Str)) (srt : Str)
    (hsplit : pySplit "\n".data srt = bs.flatMap blockLines)
    (htime : ∀ b ∈ bs, (pySplit "-->".data b.2.1).length = 2)
    (hidx : ∀ b ∈ bs, pyInt b.1 ≠ none) :
    convert_srt_into_document srt =
      .ok (bs.map (fun b =>
        ⟨b.2.2, (pyInt b.1).getD 0,
         pyStrip ((pySplit "-->".data b.2.1).getD 0 []),
         pyStrip ((pySplit "-->".data b.2.1).getD 1 [])⟩)) := by
  obtain ⟨h0, h1, h2, h3⟩ := every4_blocks bs
  have hany : (bs.map (fun _ => ([] : Str))).any (fun s => !s.isEmpty) = false := by
    simp [List.any_map]
  have hdec : decompose_srt srt =
      .ok (bs.map (fun b => b.1),
           bs.map (fun b =>
             (pyStrip ((pySplit "-->".data b.2.1).getD 0 []),
              pyStrip ((pySplit "-->".data b.2.1).getD 1 []))),
           bs.map (fun b => b.2.2)) := by
    simp only [decompose_srt, hsplit, h0, h1, h2, h3]
    rw [hany]
    simp only [Bool.false_eq_true, if_false]
    rw [exMapM_splitTimecode_ok bs htime]
  simp only [convert_srt_into_document, hdec]
  rw [zip3_map]
  rw [exMapM_mkRecord]
  · rw [List.map_map]
    rfl
  · intro x hx
    rcases List.mem_map.mp hx with ⟨b, hb, rfl⟩
    exact hidx b hb

/-- Witness for C8 at a concrete two-block transcript. -/
theorem convert_srt_well_formed_blocks_witness :
    convert_srt_into_document srtTwoBlocks =
      .ok (twoBlocks.map (fun b =>
        ⟨b.2.2, (pyInt b.1).getD 0,
         pyStrip ((pySplit "-->".data b.2.1).getD 0 []),
         pyStrip ((pySplit "-->".data b.2.1).getD 1 [])⟩)) :=
  convert_srt_well_formed_blocks twoBlocks srtTwoBlocks (by decide) (by decide) (by decide)

/-! ## Claim C1 -/

/-- C1: with duplicates not requested (the source's default),
`extract_scriptures_from_srt` collapses identical canonical strings
and returns them sorted lexicographically ascending; as a pure
function, a second run on the same input returns the same output. -/
theorem extract_scriptures_sorted_deduped (srt : Str) (out : List String)
    (h : extract_scriptures_from_srt srt false = .ok out) :
    out.Sorted SLe ∧ out.Nodup
    ∧ extract_scriptures_from_srt srt false = extract_scriptures_from_srt srt false := by
  unfold extract_scriptures_from_srt at h
  split at h
  · cases h
  · simp only [Bool.false_eq_true, if_false] at h
    injection h with h
    subst h
    exact ⟨List.sorted_insertionSort SLe _,
      (List.perm_insertionSort SLe _).nodup_iff.mpr (List.nodup_dedup _), rfl⟩

set_option maxRecDepth 1000000 in
set_option maxHeartbeats 1000000 in
/-- Witness for C1 at a concrete transcript whose caption repeats one
reference. -/
theorem extract_scriptures_sorted_deduped_witness :
    (["Mark 8:34"] : List String).Sorted SLe ∧ (["Mark 8:34"] : List String).Nodup
    ∧ extract_scriptures_from_srt srtExample false = extract_scriptures_from_srt srtExample false :=
  extract_scriptures_sorted_deduped srtExample ["Mark 8:34"] (by decide)

/-! ## Helper lemmas: stability of the longest-first sort -/

theorem filter_key_orderedInsert {α : Type} (r : α → α → Prop) [DecidableRel r] (key : α → Nat)
    (hkey : ∀ a b, ¬ r a b → key a ≠ key b) (x : α) (n : Nat) :
    ∀ l : List α, (List.orderedInsert r x l).filter (fun a => decide (key a = n)) =
      if key x = n then x :: l.filter (fun a => decide (key a = n))
      else l.filter (fun a => decide (key a = n)) := by
  intro l
  induction l with
  | nil =>
    by_cases hx : key x = n <;> simp [List.orderedInsert, hx]
  | cons y ys ih =>
    by_cases hr : r x y
    · by_cases hx : key x = n <;> simp [List.orderedInsert, hr, hx]
    · have hne := hkey x y hr
      by_cases hx : key x = n
      · have hy : key y ≠ n := fun hyn => hne (hx.trans hyn.symm)
        simp [List.orderedInsert, hr, hx, hy, ih]
      · by_cases hy : key y = n <;> simp [List.orderedInsert, hr, hx, hy, ih]

theorem filter_key_insertionSort {α : Type} (r : α → α → Prop) [DecidableRel r] (key : α → Nat)
    (hkey : ∀ a b, ¬ r a b → key a ≠ key b) (n : Nat) :
    ∀ l : List α, (List.insertionSort r l).filter (fun a => decide (key a = n)) =
      l.filter (fun a => decide (key a = n))
  | [] => rfl
  | x :: xs => by
    simp only [List.insertionSort]
    rw [filter_key_orderedInsert r key hkey x n (List.insertionSort r xs)]
    rw [filter_key_insertionSort r key hkey n xs]
    by_cases hx : key x = n <;> simp [hx]

/-! ## Claim C6 -/

set_option maxRecDepth 1000000 in
set_option maxHeartbeats 1000000 in
/-- C6: the spelled-number alternation lists longer number words before
shorter ones (stable among equal lengths: the filtered sublist of any
given length keeps its original order), so a compound such as
"thirty four" is matched and replaced as one unit: normalizing the
text "thirty four" yields "34", not a corruption of its parts. -/
theorem number_word_alternation_longest_first :
    (∀ ws : List Str, (words_to_regexList ws).Pairwise lenGe)
    ∧ (∀ (ws : List Str) (n : Nat),
        (words_to_regexList ws).filter (fun w => decide (w.length = n)) =
          ws.filter (fun w => decide (w.length = n)))
    ∧ numberWordsSorted.indexOf "thirty four".data < numberWordsSorted.indexOf "four".data
    ∧ normalizeNumbers "thirty four".data = "34".data := by
  refine ⟨?_, ?_, by decide, by decide⟩
  · intro ws
    exact List.sorted_insertionSort lenGe ws
  · intro ws n
    exact filter_key_insertionSort lenGe (fun w => w.length)
      (fun a b hab hk => hab (le_of_eq hk.symm)) n ws

/-- Witness for C6: the longest-first ordering instantiated at the
concrete number-word list. -/
theorem number_word_alternation_longest_first_witness :
    (words_to_regexList numberWords).Pairwise lenGe :=
  number_word_alternation_longest_first.1 numberWords

/-! ## Claim C10 -/

set_option maxRecDepth 1000000 in
set_option maxHeartbeats 1000000 in
/-- C10: the number-word substitution in `extract` is an unanchored
global substring rewrite: the alternation has no word-boundary anchors
(no backslash at all), and a word found anywhere — including inside a
longer word — is replaced at every occurrence: "money" becomes "m1y"
and "one bone" becomes "1 b1" before pattern matching. -/
theorem number_substitution_is_global_rewrite :
    normalizeNumbers "money".data = "m1y".data
    ∧ normalizeNumbers "one bone".data = "1 b1".data
    ∧ '\\' ∉ words_to_numbers_regex :=
  ⟨by decide, by decide, by decide⟩

/-! ## Claim C5 -/

set_option maxRecDepth 1000000 in
set_option maxHeartbeats 1000000 in
/-- C5: the combined book alternation embedded in the compiled
scripture pattern lists the candidate patterns in descending textual
length (stable: the sublist of patterns of any fixed length keeps
registration order), the concrete registry order being the longest
Timothy patterns first down to "Mark", and this alternation string is
a contiguous segment of the full scripture pattern string. -/
theorem book_alternation_longest_first :
    combinedBooks.Pairwise bookLenGe
    ∧ (∀ (l : List CBook) (n : Nat),
        (List.insertionSort bookLenGe l).filter (fun b => decide (b.pattern.length = n)) =
          l.filter (fun b => decide (b.pattern.length = n)))
    ∧ combinedBooks.map (fun b => b.pattern) =
        ["(?:2|II|2nd|two|second)(?:\\s)?Tim(?:othy)?".data,
         "(?:1|I|1st|one|first)(?:\\s)?Tim(?:othy)?".data,
         "Cant(?:icle(?: of Cant(?:icles)?)?)?".data,
         "Song(?:s)?(?: of Son(?:gs)?)?".data,
         "Mark".data]
    ∧ book_re_string <:+: get_scripture_regex := by
  refine ⟨List.sorted_insertionSort bookLenGe booksUpdated, ?_, by decide, by decide⟩
  intro l n
  exact filter_key_insertionSort bookLenGe (fun b => b.pattern.length)
    (fun a b hab hk => hab (le_of_eq hk.symm)) n l

/-- Witness for C5: stability instantiated at the concrete registry
and one concrete length. -/
theorem book_alternation_longest_first_witness :
    (List.insertionSort bookLenGe booksUpdated).filter
        (fun b => decide (b.pattern.length = 40)) =
      booksUpdated.filter (fun b => decide (b.pattern.length = 40)) :=
  book_alternation_longest_first.2.1 booksUpdated 40

/-! ## Claim C2 -/

set_option maxRecDepth 1000000 in
set_option maxHeartbeats 4000000 in
/-- C2: every registered pattern beginning with a leading ordinal group
is expanded by registry construction so that the cardinal digit, Roman
numeral, suffixed ordinal, spelled cardinal and spelled ordinal are all
accepted prefixes, and concretely the five spellings of "2 Timothy
3:16" all extract to the same canonical "II Timothy 3:16". -/
theorem leading_numeral_expansion :
    (∀ b ∈ books, ∀ st ∈ numeralSubs, st.1 <+: b.pattern → st.2 <+: updateBookPattern b.pattern)
    ∧ extractStrings "2 timothy 3:16".data = ["II Timothy 3:16"]
    ∧ extractStrings "II timothy 3:16".data = ["II Timothy 3:16"]
    ∧ extractStrings "two timothy 3:16".data = ["II Timothy 3:16"]
    ∧ extractStrings "second timothy 3:16".data = ["II Timothy 3:16"]
    ∧ extractStrings "2nd timothy 3:16".data = ["II Timothy 3:16"] :=
  ⟨by decide, by decide, by decide, by decide, by decide, by decide⟩

/-- Witness for C2: the expansion applied to the registered II Timothy
entry, and one concrete equivalent extraction. -/
theorem leading_numeral_expansion_witness :
    "(?:2|II|2nd|two|second)".data <+: updateBookPattern "(?:2|II)(?:\\s)?Tim(?:othy)?".data
    ∧ extractStrings "2 timothy 3:16".data = ["II Timothy 3:16"] :=
  ⟨leading_numeral_expansion.1
      ⟨"2tim", "II Timothy", "2Tim", "(?:2|II)(?:\\s)?Tim(?:othy)?".data, [18, 26, 17, 22]⟩
      (by decide)
      ("(?:2|II)".data, "(?:2|II|2nd|two|second)".data)
      (by decide) (by decide),
    leading_numeral_expansion.2.1⟩

/-! ## Claim C4 -/

set_option maxRecDepth 1000000 in
set_option maxHeartbeats 1000000 in
/-- C4: extraction is total and silently drops out-of-range
references: every reference it returns passes the verse-table bounds
check, and a text whose verse number exceeds the chapter's verse count
extracts to the empty list rather than an error. -/
theorem out_of_range_references_discarded :
    (∀ (text : Str) (r : Ref), r ∈ bibleExtract text → refWithinBounds r = true)
    ∧ extractStrings "2 timothy 3:99".data = [] := by
  constructor
  · intro text r hr
    unfold bibleExtract at hr
    rw [List.mem_filterMap] at hr
    obtain ⟨m, _, hm⟩ := hr
    cases hg : groupsOf (normalizeNumbers text) m.caps with
    | none =>
      rw [hg] at hm
      cases hm
    | some g =>
      rw [hg] at hm
      simp only [Option.some_bind] at hm
      unfold resolve at hm
      split at hm
      · cases hm
      · split at hm
        · cases hm
        · rename_i hb
          split at hm
          · injection hm with hm
            rename_i hw
            rw [← hm]
            exact hw
          · cases hm
        · split at hm
          · injection hm with hm
            rename_i hw
            rw [← hm]
            exact hw
          · cases hm
        · split at hm
          · injection hm with hm
            rename_i hw
            rw [← hm]
            exact hw
          · cases hm
  · decide

set_option maxRecDepth 1000000 in
set_option maxHeartbeats 1000000 in
/-- Witness for C4: a reference actually extracted from a concrete text
passes the bounds check. -/
theorem out_of_range_references_discarded_witness :
    refWithinBounds ⟨"Mark", 8, some 34, none, none⟩ = true :=
  out_of_range_references_discarded.1 "mark 8:34".data ⟨"Mark", 8, some 34, none, none⟩
    (by decide)

/-! ## Helper lemmas: the EndChapterNumber colon guard

The `EndChapterNumber` group of the scripture pattern carries the
lookahead `(?=\s*:\s*)` inside the group.  The lemmas below show that
any capture this matcher records for that group ends at a position
followed, after optional whitespace, by a colon. -/

theorem setCap_ecn (g : GName) (span : Nat × Nat) (c : Caps)
    (hg : g ≠ GName.endChapterNumber) :
    (setCap g span c).endChapterNumber = c.endChapterNumber := by
  cases g <;> first
  | rfl
  | exact absurd rfl hg

theorem cls_success {txt : Str} {k : CClass} {fuel i : Nat} {c : Caps} {p : Nat × Caps}
    (hp : p ∈ matchR txt fuel (.cls k) i c) :
    p = (i + 1, c) ∧ ∃ ch, txt[i]? = some ch ∧ inClass k ch = true := by
  match fuel with
  | 0 => simp [matchR] at hp
  | fuel + 1 =>
    simp only [matchR] at hp
    split at hp
    · rename_i t ht
      split at hp
      · rename_i hin
        simp only [List.mem_singleton] at hp
        exact ⟨hp, t, ht, hin⟩
      · simp at hp
    · simp at hp

theorem ch_success {txt : Str} {a : Char} {fuel i : Nat} {c : Caps} {p : Nat × Caps}
    (hp : p ∈ matchR txt fuel (.ch a) i c) :
    p = (i + 1, c) ∧ ∃ ch, txt[i]? = some ch ∧ lowEq ch a = true := by
  match fuel with
  | 0 => simp [matchR] at hp
  | fuel + 1 =>
    simp only [matchR] at hp
    split at hp
    · rename_i t ht
      split at hp
      · rename_i hin
        simp only [List.mem_singleton] at hp
        exact ⟨hp, t, ht, hin⟩
      · simp at hp
    · simp at hp

theorem star_sp_spec (txt : Str) : ∀ (fuel i : Nat) (c : Caps) (p : Nat × Caps),
    p ∈ matchR txt fuel (.star sp) i c →
    i ≤ p.1 ∧ ∀ j, i ≤ j → j < p.1 → ∃ ch, txt[j]? = some ch ∧ isPySpace ch = true := by
  intro fuel
  induction fuel with
  | zero =>
    intro i c p hp
    simp [matchR] at hp
  | succ f ih =>
    intro i c p hp
    simp only [matchR, List.mem_append, List.mem_flatMap] at hp
    rcases hp with ⟨q, hq, hpq⟩ | hp
    · obtain ⟨hq1, ch, hch, hsp⟩ := cls_success hq
      split at hpq
      · simp at hpq
      · obtain ⟨h1, h2⟩ := ih q.1 q.2 p hpq
        subst hq1
        constructor
        · omega
        · intro j hij hjp
          by_cases hji : j = i
          · subst hji
            exact ⟨ch, hch, by simpa [inClass] using hsp⟩
          · exact h2 j (by omega) hjp
    · simp at hp
      subst hp
      exact ⟨le_refl i, fun j hij hji => absurd hji (by omega)⟩

theorem skip_reaches (txt : Str) : ∀ (d i : Nat),
    (∀ j, i ≤ j → j < i + d → ∃ ch, txt[j]? = some ch ∧ isPySpace ch = true) →
    (∃ t, txt[i + d]? = some t ∧ lowEq t ':' = true) →
    colonAfterWS txt i = true := by
  intro d
  induction d with
  | zero =>
    intro i _ hcolon
    obtain ⟨t, ht, hlow⟩ := hcolon
    have ht' : txt[i]? = some t := by simpa using ht
    obtain ⟨hl, he⟩ := List.getElem?_eq_some_iff.mp ht'
    unfold colonAfterWS
    rw [List.drop_eq_getElem_cons hl, he]
    simp [skipSpColon, hlow]
  | succ d ih =>
    intro i hsp hcolon
    obtain ⟨ch, hch, hchsp⟩ := hsp i (le_refl i) (by omega)
    obtain ⟨hl, he⟩ := List.getElem?_eq_some_iff.mp hch
    unfold colonAfterWS
    rw [List.drop_eq_getElem_cons hl, he]
    simp only [skipSpColon]
    by_cases hlow : lowEq ch ':' = true
    · simp [hlow]
    · rw [if_neg hlow, if_pos hchsp]
      have hrec : colonAfterWS txt (i + 1) = true := by
        refine ih (i + 1) (fun j hj1 hj2 => hsp j (by omega) (by omega)) ?_
        obtain ⟨t, ht, htl⟩ := hcolon
        exact ⟨t, by rw [show i + 1 + d = i + (d + 1) from by omega]; exact ht, htl⟩
      simpa [colonAfterWS] using hrec

theorem wsColon_sound (txt : Str) : ∀ (fuel i : Nat) (c : Caps),
    matchR txt fuel wsColonRE i c ≠ [] → colonAfterWS txt i = true := by
  intro fuel i c hne
  match fuel with
  | 0 => simp [matchR] at hne
  | f + 1 =>
    rw [show wsColonRE = .seq (.star sp) (.seq (.ch ':') (.seq (.star sp) .eps)) from rfl] at hne
    simp only [matchR] at hne
    obtain ⟨p, hp⟩ := List.exists_mem_of_ne_nil _ hne
    rw [List.mem_flatMap] at hp
    obtain ⟨q, hq, hpq⟩ := hp
    obtain ⟨hqi, hsp⟩ := star_sp_spec txt f i c q hq
    match f, hpq with
    | 0, hpq => simp [matchR] at hpq
    | f1 + 1, hpq =>
      simp only [matchR, List.mem_flatMap] at hpq
      obtain ⟨u, hu, _⟩ := hpq
      obtain ⟨_, t, htq, htl⟩ := ch_success hu
      refine skip_reaches txt (q.1 - i) i ?_ ?_
      · intro j hij hje
        exact hsp j hij (by omega)
      · refine ⟨t, ?_, htl⟩
        rw [show i + (q.1 - i) = q.1 from by omega]
        exact htq

theorem grpECN_sound (txt : Str) (d w : RE) (hw : w = wsColonRE) :
    ∀ (fuel i : Nat) (c : Caps) (p : Nat × Caps),
      p ∈ matchR txt fuel (.grp .endChapterNumber (.seq d (.look w))) i c →
      ECNok txt p.2 := by
  intro fuel i c p hp
  match fuel with
  | 0 => simp [matchR] at hp
  | f + 1 =>
    simp only [matchR, List.mem_map] at hp
    obtain ⟨q, hq, rfl⟩ := hp
    have hcol : colonAfterWS txt q.1 = true := by
      match f, hq with
      | 0, hq => simp [matchR] at hq
      | f1 + 1, hq =>
        simp only [matchR, List.mem_flatMap] at hq
        obtain ⟨u, hu, hqu⟩ := hq
        match f1, hqu with
        | 0, hqu => simp [matchR] at hqu
        | f2 + 1, hqu =>
          simp only [matchR] at hqu
          split at hqu
          · simp at hqu
          · rename_i hne
            simp only [List.mem_singleton] at hqu
            subst hqu
            rw [hw] at hne
            simp only [List.isEmpty_iff] at hne
            exact wsColon_sound txt f2 u.1 u.2 hne
    intro x y hxy
    simp only [setCap] at hxy
    injection hxy with hxy
    have hy : y = q.1 := congrArg Prod.snd hxy.symm
    rw [hy]
    exact hcol

theorem matchR_ecnGuarded (txt : Str) : ∀ (fuel : Nat) (re : RE) (i : Nat) (c : Caps),
    ecnGuarded re = true → ECNok txt c → ∀ p ∈ matchR txt fuel re i c, ECNok txt p.2 := by
  intro fuel
  induction fuel with
  | zero =>
    intro re i c _ _ p hp
    simp [matchR] at hp
  | succ f ih =>
    intro re i c hg hc p hp
    cases re with
    | fail => simp [matchR] at hp
    | eps =>
      simp [matchR] at hp
      subst hp
      exact hc
    | ch a =>
      obtain ⟨hp1, _⟩ := ch_success hp
      subst hp1
      exact hc
    | cls k =>
      obtain ⟨hp1, _⟩ := cls_success hp
      subst hp1
      exact hc
    | wordB =>
      simp only [matchR] at hp
      split at hp
      · simp at hp
        subst hp
        exact hc
      · simp at hp
    | seq a b =>
      simp only [ecnGuarded, Bool.and_eq_true] at hg
      simp only [matchR, List.mem_flatMap] at hp
      obtain ⟨q, hq, hpq⟩ := hp
      exact ih b q.1 q.2 hg.2 (ih a i c hg.1 hc q hq) p hpq
    | alt a b =>
      simp only [ecnGuarded, Bool.and_eq_true] at hg
      simp only [matchR, List.mem_append] at hp
      rcases hp with hp | hp
      · exact ih a i c hg.1 hc p hp
      · exact ih b i c hg.2 hc p hp
    | star a =>
      have hg' : ecnGuarded a = true := hg
      simp only [matchR, List.mem_append, List.mem_flatMap] at hp
      rcases hp with ⟨q, hq, hpq⟩ | hp
      · split at hpq
        · simp at hpq
        · exact ih (.star a) q.1 q.2 hg' (ih a i c hg' hc q hq) p hpq
      · simp at hp
        subst hp
        exact hc
    | look a =>
      simp only [matchR] at hp
      split at hp
      · simp at hp
      · simp at hp
        subst hp
        exact hc
    | grp g a =>
      cases g with
      | endChapterNumber =>
        cases a with
        | fail => simp [ecnGuarded] at hg
        | eps => simp [ecnGuarded] at hg
        | ch aa => simp [ecnGuarded] at hg
        | cls ak => simp [ecnGuarded] at hg
        | wordB => simp [ecnGuarded] at hg
        | alt x y => simp [ecnGuarded] at hg
        | star ax => simp [ecnGuarded] at hg
        | grp gg ga => simp [ecnGuarded] at hg
        | look al => simp [ecnGuarded] at hg
        | seq d b2 =>
          cases b2 with
          | fail => simp [ecnGuarded] at hg
          | eps => simp [ecnGuarded] at hg
          | ch ba => simp [ecnGuarded] at hg
          | cls bk => simp [ecnGuarded] at hg
          | wordB => simp [ecnGuarded] at hg
          | seq u v => simp [ecnGuarded] at hg
          | alt x2 y2 => simp [ecnGuarded] at hg
          | star bx => simp [ecnGuarded] at hg
          | grp g2 a2 => simp [ecnGuarded] at hg
          | look w =>
            have hw : w = wsColonRE := by
              simp only [ecnGuarded, beq_iff_eq] at hg
              exact hg
            exact grpECN_sound txt d w hw (f + 1) i c p hp
      | bookTitle =>
        have hg' : ecnGuarded a = true := hg
        simp only [matchR, List.mem_map] at hp
        obtain ⟨q, hq, rfl⟩ := hp
        have hqok := ih a i c hg' hc q hq
        intro x y hxy
        rw [setCap_ecn _ _ _ (by simp)] at hxy
        exact hqok x y hxy
      | chapterNumber =>
        have hg' : ecnGuarded a = true := hg
        simp only [matchR, List.mem_map] at hp
        obtain ⟨q, hq, rfl⟩ := hp
        have hqok := ih a i c hg' hc q hq
        intro x y hxy
        rw [setCap_ecn _ _ _ (by simp)] at hxy
        exact hqok x y hxy
      | verseNumber =>
        have hg' : ecnGuarded a = true := hg
        simp only [matchR, List.mem_map] at hp
        obtain ⟨q, hq, rfl⟩ := hp
        have hqok := ih a i c hg' hc q hq
        intro x y hxy
        rw [setCap_ecn _ _ _ (by simp)] at hxy
        exact hqok x y hxy
      | endVerseNumber =>
        have hg' : ecnGuarded a = true := hg
        simp only [matchR, List.mem_map] at hp
        obtain ⟨q, hq, rfl⟩ := hp
        have hqok := ih a i c hg' hc q hq
        intro x y hxy
        rw [setCap_ecn _ _ _ (by simp)] at hxy
        exact hqok x y hxy

theorem scanGo_ecn (txt : Str) (re : RE) (hre : ecnGuarded re = true) :
    ∀ (fuel i : Nat) (m : MatchRes), m ∈ scanGo txt re fuel i → ECNok txt m.caps := by
  intro fuel
  induction fuel with
  | zero =>
    intro i m hm
    simp [scanGo] at hm
  | succ f ih =>
    intro i m hm
    simp only [scanGo] at hm
    split at hm
    · simp at hm
    · split at hm
      · rename_i p hhead
        rcases List.mem_cons.mp hm with rfl | hm2
        · have hp : p ∈ matchR txt (engineFuel txt) re i {} :=
            List.mem_of_mem_head? hhead
          exact matchR_ecnGuarded txt (engineFuel txt) re i {} hre
            (fun a b h => Option.noConfusion h) p hp
        · exact ih _ m hm2
      · exact ih _ m hm

/-! ## Claim C3 -/

/-- C3: the range-completion policy — an `EndChapterNumber` capture is
only recorded when followed (after optional whitespace) by a colon; a
raw match with an end chapter but no end verse resolves to nothing (is
discarded); and an end verse without an end chapter closes a
same-chapter range, the end chapter set to the start chapter. -/
theorem range_completion_policy :
    (∀ (txt : Str) (m : MatchRes), m ∈ findIter txt scriptureRE →
      ∀ a b, m.caps.endChapterNumber = some (a, b) → colonAfterWS txt b = true)
    ∧ (∀ (g : RawGroups) (ec : Nat), g.endChap = some ec → g.endVerseNum = none →
        resolve g = none)
    ∧ (∀ (g : RawGroups) (r : Ref) (v : Nat), g.endChap = none → g.endVerseNum = some v →
        resolve g = some r → r.endChapter = some r.startChapter ∧ r.endVerse = some v) := by
  refine ⟨?_, ?_, ?_⟩
  · intro txt m hm a b hab
    exact scanGo_ecn txt scriptureRE (by decide) _ _ m hm a b hab
  · intro g ec hec hev
    unfold resolve
    split
    · rfl
    · simp [hec, hev]
  · intro g r v hec hev hres
    obtain ⟨title, chap, vn, ecO, evO⟩ := g
    simp only at hec hev
    subst hec
    subst hev
    unfold resolve at hres
    split at hres
    · cases hres
    · split at hres
      · rename_i h1 h2
        simp at h1
      · rename_i ec1 ev1 h1 h2
        simp at h1
      · rename_i ev1 h1 h2
        simp only at h2
        injection h2 with h2
        subst h2
        split at hres
        · injection hres with hres
          rw [← hres]
          exact ⟨rfl, rfl⟩
        · cases hres
      · rename_i h1 h2
        simp at h2

set_option maxRecDepth 1000000 in
set_option maxHeartbeats 1000000 in
/-- Witness for C3: a concrete chapter-range match whose end-chapter
capture ends right before a colon, a concrete dangling chapter range
that is discarded, and a concrete same-chapter verse range. -/
theorem range_completion_policy_witness :
    colonAfterWS "2 timothy 1:2-3:4".data 15 = true
    ∧ resolve ⟨"mark".data, 1, none, some 3, none⟩ = none
    ∧ ((⟨"Mark", 2, some 3, some 2, some 5⟩ : Ref).endChapter =
        some (⟨"Mark", 2, some 3, some 2, some 5⟩ : Ref).startChapter
       ∧ (⟨"Mark", 2, some 3, some 2, some 5⟩ : Ref).endVerse = some 5) :=
  ⟨range_completion_policy.1 "2 timothy 1:2-3:4".data
      ⟨0, 17, ⟨some (0, 9), some (10, 11), some (12, 13), some (14, 15), some (16, 17)⟩⟩
      (by decide) 14 15 rfl,
   range_completion_policy.2.1 ⟨"mark".data, 1, none, some 3, none⟩ 3 rfl rfl,
   range_completion_policy.2.2 ⟨"mark".data, 2, some 3, none, some 5⟩
      ⟨"Mark", 2, some 3, some 2, some 5⟩ 5 rfl rfl (by decide)⟩

end Windwords
